import Mathlib

/-
Verification of the time-sliced chunk scheduler (`useTimeSlice`).

The scheduler closes over five mutable variables: the reactive flags
`isRunning` and `isPaused`, the timer variable `timeoutId`, the cursor
`currentIndex` and the `result` array.  We embed this closure state as the
structure `St`, and the surrounding single-threaded runtime as `Sys`:
`timers` is the set of scheduled, not-yet-fired, not-yet-cancelled timeout
ids (in the browser, the timers the event loop still holds), `nextId` the
id allocator of `window.setTimeout`, and `trace` the sequence of observable
events (handler invocations, `onProgress` and `onComplete` callbacks), each
tagged with the index of the run that emitted it.  The run index is pure
instrumentation: it is incremented whenever `start` actually begins a run,
and lets us speak about "the callbacks of one run".

JavaScript array assignment `result[i] = v` is embedded by `listSet`,
which pads with holes (`none`) when writing past the end, exactly as a JS
array does.  `processChunk`, `start`, `pause`, `resume` and `stop` are
direct transcriptions of the source; `fire` is the runtime step in which a
scheduled timeout elapses and invokes its callback (the callback is always
`processChunk`; firing consumes the live timer but, like the browser, does
not null out the scheduler's `timeoutId` variable).
-/

namespace TimeSlice

/-- Configuration captured by `useTimeSlice` at creation:
`data`, `count` (chunk size), `interval`, and the `handler`. -/
structure Config (T R : Type) where
  data : List T
  count : Nat
  interval : Nat
  handler : T → Nat → R

/-- Observable events of one scheduler: a handler invocation on index `i`,
an `onProgress(completed, total)` callback, an `onComplete(res)` callback. -/
inductive Ev (R : Type) where
  | call (i : Nat)
  | progress (completed total : Nat)
  | complete (res : List (Option R))
deriving DecidableEq

/-- The closure state of `useTimeSlice`: the two reactive flags, the
`timeoutId` variable, the cursor and the result array (with JS holes). -/
structure St (R : Type) where
  isRunning : Bool
  isPaused : Bool
  timeoutId : Option Nat
  currentIndex : Nat
  result : List (Option R)
deriving DecidableEq

/-- The scheduler together with its runtime: live (scheduled, unfired,
uncancelled) timer ids, the timeout-id allocator, the current run index,
and the tagged event trace. -/
structure Sys (R : Type) where
  st : St R
  timers : List Nat
  nextId : Nat
  runId : Nat
  trace : List (Nat × Ev R)
deriving DecidableEq

/-- Initial closure state: both flags false, no timer, cursor 0, empty
results. -/
def initSt (R : Type) : St R :=
  { isRunning := false, isPaused := false, timeoutId := none,
    currentIndex := 0, result := [] }

/-- Initial system: fresh scheduler, no timers, empty trace. -/
def initSys (R : Type) : Sys R :=
  { st := initSt R, timers := [], nextId := 0, runId := 0, trace := [] }

/-- JS array assignment `a[i] = v`: overwrite in bounds, otherwise pad
with holes up to `i` and append. -/
def listSet {R : Type} (res : List (Option R)) (i : Nat) (v : R) :
    List (Option R) :=
  if i < res.length then res.set i (some v)
  else res ++ List.replicate (i - res.length) (none : Option R) ++ [some v]

/-- The chunk loop `for (i = cur; i < e; i++) result[i] = handler(data[i], i)`.
Every call site has `e ≤ data.length`, so the `none` branch of the lookup is
dead; it merely totalises the definition. -/
def chunkWrite {T R : Type} (handler : T → Nat → R) (data : List T)
    (cur e : Nat) (res : List (Option R)) : List (Option R) :=
  (List.range' cur (e - cur)).foldl
    (fun acc i =>
      match data[i]? with
      | some x => listSet acc i (handler x i)
      | none => acc)
    res

/-- The handler-invocation events of the chunk loop, in loop order. -/
def chunkCalls (runId cur e : Nat) {R : Type} : List (Nat × Ev R) :=
  (List.range' cur (e - cur)).map fun i => (runId, Ev.call i)

/-- `processChunk`: guard on the flags, process one slice synchronously,
report progress, then either schedule the next slice or finish.  The
completion branch does not touch `timeoutId` (the source never nulls it
there). -/
def processChunk {T R : Type} (cfg : Config T R) (sys : Sys R) : Sys R :=
  if !sys.st.isRunning || sys.st.isPaused then sys
  else
    let totalLength := cfg.data.length
    let e := min (sys.st.currentIndex + cfg.count) totalLength
    let res := chunkWrite cfg.handler cfg.data sys.st.currentIndex e sys.st.result
    let tr := sys.trace ++ chunkCalls sys.runId sys.st.currentIndex e
      ++ [(sys.runId, Ev.progress e totalLength)]
    if e < totalLength then
      { st := { sys.st with timeoutId := some sys.nextId,
                            currentIndex := e, result := res },
        timers := sys.timers ++ [sys.nextId],
        nextId := sys.nextId + 1,
        runId := sys.runId,
        trace := tr }
    else
      { st := { sys.st with isRunning := false, currentIndex := e, result := res },
        timers := sys.timers,
        nextId := sys.nextId,
        runId := sys.runId,
        trace := tr ++ [(sys.runId, Ev.complete res)] }

/-- `start()`: no-op while `isRunning`; otherwise set the flags, reset the
cursor and the results, and synchronously process the first chunk.  The run
index bump is instrumentation marking the new run. -/
def startOp {T R : Type} (cfg : Config T R) (sys : Sys R) : Sys R :=
  if sys.st.isRunning then sys
  else
    processChunk cfg
      { sys with
        st := { sys.st with isRunning := true, isPaused := false,
                            currentIndex := 0, result := [] },
        runId := sys.runId + 1 }

/-- `pause()`: no-op unless running and not yet paused; set `isPaused` and
clear the pending timeout. -/
def pauseOp {R : Type} (sys : Sys R) : Sys R :=
  if !sys.st.isRunning || sys.st.isPaused then sys
  else
    let sys1 : Sys R := { sys with st := { sys.st with isPaused := true } }
    match sys1.st.timeoutId with
    | some id =>
        { sys1 with st := { sys1.st with timeoutId := none },
                    timers := sys1.timers.erase id }
    | none => sys1

/-- `resume()`: no-op unless running and paused; clear `isPaused` and
synchronously process the next chunk. -/
def resumeOp {T R : Type} (cfg : Config T R) (sys : Sys R) : Sys R :=
  if !sys.st.isRunning || !sys.st.isPaused then sys
  else processChunk cfg { sys with st := { sys.st with isPaused := false } }

/-- `stop()`: no-op unless running; clear both flags, clear the pending
timeout, reset the cursor and the results. -/
def stopOp {R : Type} (sys : Sys R) : Sys R :=
  if !sys.st.isRunning then sys
  else
    let sys1 : Sys R :=
      { sys with st := { sys.st with isRunning := false, isPaused := false } }
    let sys2 : Sys R :=
      match sys1.st.timeoutId with
      | some id =>
          { sys1 with st := { sys1.st with timeoutId := none },
                      timers := sys1.timers.erase id }
      | none => sys1
    { sys2 with st := { sys2.st with currentIndex := 0, result := [] } }

/-- Runtime step: the earliest scheduled timeout elapses and runs its
callback (`processChunk`).  With no live timer, time passes and nothing
happens.  The `timeoutId` variable is not nulled by firing. -/
def fire {T R : Type} (cfg : Config T R) (sys : Sys R) : Sys R :=
  match sys.timers with
  | [] => sys
  | _ :: rest => processChunk cfg { sys with timers := rest }

/-- The actions an execution interleaves: the four public operations and
the elapse of a scheduled timeout. -/
inductive Act where
  | start
  | pause
  | resume
  | stop
  | fire
deriving DecidableEq

/-- One step of the interleaving semantics. -/
def stepAct {T R : Type} (cfg : Config T R) (sys : Sys R) : Act → Sys R
  | Act.start => startOp cfg sys
  | Act.pause => pauseOp sys
  | Act.resume => resumeOp cfg sys
  | Act.stop => stopOp sys
  | Act.fire => fire cfg sys

/-- Execute a list of actions in order. -/
def exec {T R : Type} (cfg : Config T R) : List Act → Sys R → Sys R
  | [], sys => sys
  | a :: rest, sys => exec cfg rest (stepAct cfg sys a)

/-- Let `k` scheduled timeouts elapse in sequence (time passing with no
intervening operation). -/
def fires {T R : Type} (cfg : Config T R) : Nat → Sys R → Sys R
  | 0, sys => sys
  | k + 1, sys => fires cfg k (fire cfg sys)

/-- Events appended between two observations of the trace (the second
system must extend the first, which every operation does). -/
def newEvents {R : Type} (s t : Sys R) : List (Nat × Ev R) :=
  t.trace.drop s.trace.length

/-- Handler-invocation indices occurring in a tagged trace, in order. -/
def callIdxs {R : Type} (tr : List (Nat × Ev R)) : List Nat :=
  tr.filterMap fun p =>
    match p.2 with
    | Ev.call i => some i
    | _ => none

/-- Progress payloads occurring in a tagged trace, in order. -/
def progressT {R : Type} (tr : List (Nat × Ev R)) : List (Nat × Nat) :=
  tr.filterMap fun p =>
    match p.2 with
    | Ev.progress c t => some (c, t)
    | _ => none

/-- Completion payloads occurring in a tagged trace, in order. -/
def completionsT {R : Type} (tr : List (Nat × Ev R)) : List (List (Option R)) :=
  tr.filterMap fun p =>
    match p.2 with
    | Ev.complete res => some res
    | _ => none

/-- The events of run `r`, untagged, in order. -/
def runEvents {R : Type} (r : Nat) (tr : List (Nat × Ev R)) : List (Ev R) :=
  tr.filterMap fun p => if p.1 = r then some p.2 else none

/-- The callback events (progress or completion) of an untagged trace. -/
def cbEvs {R : Type} (l : List (Ev R)) : List (Ev R) :=
  l.filter fun e =>
    match e with
    | Ev.call _ => false
    | _ => true

/-- Completion payloads of an untagged trace. -/
def completions {R : Type} (l : List (Ev R)) : List (List (Option R)) :=
  l.filterMap fun e =>
    match e with
    | Ev.complete res => some res
    | _ => none

/-- The result prefix after the first `c` elements have been processed:
`result[i] = handler(data[i], i)` for `i < c`. -/
def prefixRes {T R : Type} (cfg : Config T R) (c : Nat) : List (Option R) :=
  (List.range c).map fun i =>
    match cfg.data[i]? with
    | some x => some (cfg.handler x i)
    | none => none

/-- The callback events of one run have the shape
`progress c₁ n, …, progress cₖ n` followed by at most one completion, with
the reported cursors strictly increasing and every total equal to `n`. -/
def RunShape {R : Type} (n : Nat) (l : List (Ev R)) : Prop :=
  ∃ cs : List Nat, ∃ tail : List (Ev R),
    cbEvs l = (cs.map fun c => Ev.progress c n) ++ tail
    ∧ List.Chain' (fun a b => a < b) cs
    ∧ (tail = [] ∨ ∃ res, tail = [Ev.complete res])

/-- The end index of the slice `processChunk` would process next. -/
def chunkEnd {T R : Type} (cfg : Config T R) (sys : Sys R) : Nat :=
  min (sys.st.currentIndex + cfg.count) cfg.data.length

/-- Reachability invariant of the scheduler system:
the paused flag implies the running flag; while running the cursor is
strictly inside the data; at most one live timer exists, and only while
running un-paused, with `timeoutId` holding its id; trace events are tagged
with runs that have started; an active run has emitted no completion; every
run's callbacks have the `progress*, completion?` shape with strictly
increasing cursors; and an active run's callbacks are progress events
ending at the current cursor. -/
structure Inv {T R : Type} (cfg : Config T R) (sys : Sys R) : Prop where
  pausedRunning : sys.st.isPaused = true → sys.st.isRunning = true
  curLt : sys.st.isRunning = true → sys.st.currentIndex < cfg.data.length
  timersOk : sys.timers = []
      ∨ ∃ id, sys.timers = [id] ∧ sys.st.timeoutId = some id
          ∧ sys.st.isRunning = true ∧ sys.st.isPaused = false
  traceTags : ∀ p ∈ sys.trace, (p : Nat × Ev R).1 ≤ sys.runId
  noCompleteActive : sys.st.isRunning = true →
      completions (runEvents sys.runId sys.trace) = []
  shapes : 0 < cfg.count → ∀ r, RunShape cfg.data.length (runEvents r sys.trace)
  openShape : 0 < cfg.count → sys.st.isRunning = true →
      ∃ cs : List Nat,
        cbEvs (runEvents sys.runId sys.trace)
          = cs.map (fun c => Ev.progress c cfg.data.length)
        ∧ List.Chain' (fun a b => a < b) cs
        ∧ cs.getLast? = some sys.st.currentIndex

/-- A run index is dead when it is in the past, or is the current run but
the scheduler is not running and no continuation is live.  Dead runs never
receive further events. -/
def Dead {R : Type} (r : Nat) (sys : Sys R) : Prop :=
  r < sys.runId
  ∨ (r = sys.runId ∧ sys.st.isRunning = false ∧ sys.timers = [])

/-- The spec's concrete scenario: five items, chunk size two, doubling
handler. -/
def cfgA : Config Nat Nat :=
  { data := [1, 2, 3, 4, 5], count := 2, interval := 100,
    handler := fun x _ => x * 2 }

/-- Two items, chunk size one: completion happens on a fired timeout, so
the stale `timeoutId` is observable afterwards. -/
def cfgB : Config Nat Nat :=
  { data := [10, 20], count := 1, interval := 16, handler := fun x _ => x + 1 }

/-- One item, default chunk size: `start()` completes synchronously. -/
def cfgC : Config Nat Nat :=
  { data := [5], count := 10, interval := 16, handler := fun x _ => x * 2 }

/-- The empty collection with the default chunk size. -/
def cfgE : Config Nat Nat :=
  { data := [], count := 10, interval := 16, handler := fun x _ => x }

end TimeSlice

namespace TimeSlice

variable {T R : Type}

theorem prefixRes_length (cfg : Config T R) (c : Nat) :
    (prefixRes cfg c).length = c := by
  simp [prefixRes]

theorem prefixRes_zero (cfg : Config T R) : prefixRes cfg 0 = [] := rfl

theorem prefixRes_succ (cfg : Config T R) {c : Nat} (h : c < cfg.data.length) :
    prefixRes cfg (c + 1)
      = prefixRes cfg c ++ [some (cfg.handler cfg.data[c] c)] := by
  simp [prefixRes, List.range_succ, List.getElem?_eq_getElem h]

theorem listSet_at_length (l : List (Option R)) (v : R) :
    listSet l l.length v = l ++ [some v] := by
  simp [listSet]

theorem chunkWrite_nil (cfg : Config T R) (c : Nat) (res : List (Option R)) :
    chunkWrite cfg.handler cfg.data c c res = res := by
  simp [chunkWrite]

theorem chunkWrite_prefixRes (cfg : Config T R) :
    ∀ (k c : Nat), c + k ≤ cfg.data.length →
      chunkWrite cfg.handler cfg.data c (c + k) (prefixRes cfg c)
        = prefixRes cfg (c + k) := by
  intro k
  induction k with
  | zero => intro c _; simpa using chunkWrite_nil cfg c (prefixRes cfg c)
  | succ k ih =>
      intro c hck
      have hc : c < cfg.data.length := by omega
      have hrange : List.range' c (c + (k + 1) - c) = c :: List.range' (c + 1) k := by
        have h1 : c + (k + 1) - c = k + 1 := by omega
        rw [h1]
        rfl
      have hstep :
          (match cfg.data[c]? with
            | some x => listSet (prefixRes cfg c) c (cfg.handler x c)
            | none => prefixRes cfg c)
          = prefixRes cfg (c + 1) := by
        rw [List.getElem?_eq_getElem hc]
        have hl : (prefixRes cfg c).length = c := prefixRes_length cfg c
        calc listSet (prefixRes cfg c) c (cfg.handler cfg.data[c] c)
            = listSet (prefixRes cfg c) (prefixRes cfg c).length
                (cfg.handler cfg.data[c] c) := by rw [hl]
          _ = prefixRes cfg c ++ [some (cfg.handler cfg.data[c] c)] :=
              listSet_at_length _ _
          _ = prefixRes cfg (c + 1) := (prefixRes_succ cfg hc).symm
      have htail : c + (k + 1) = (c + 1) + k := by omega
      unfold chunkWrite
      rw [hrange, List.foldl_cons, hstep]
      have := ih (c + 1) (by omega)
      unfold chunkWrite at this
      have h2 : (c + 1) + k - (c + 1) = k := by omega
      rw [h2] at this
      rw [htail]
      exact this

theorem prefixRes_getElem (cfg : Config T R) {c i : Nat} (hi : i < c)
    (hn : i < cfg.data.length) :
    (prefixRes cfg c)[i]? = some (some (cfg.handler cfg.data[i] i)) := by
  simp [prefixRes, List.getElem?_map, List.getElem?_range hi,
        List.getElem?_eq_getElem hn]

theorem prefixRes_full (cfg : Config T R) :
    prefixRes cfg cfg.data.length
      = cfg.data.mapIdx fun i x => some (cfg.handler x i) := by
  apply List.ext_getElem?
  intro i
  by_cases hi : i < cfg.data.length
  · rw [prefixRes_getElem cfg hi hi]
    simp [List.getElem?_mapIdx, List.getElem?_eq_getElem hi]
  · have h1 : (prefixRes cfg cfg.data.length).length ≤ i := by
      rw [prefixRes_length]; omega
    have h2 : (cfg.data.mapIdx fun i x => some (cfg.handler x i)).length ≤ i := by
      simpa using by omega
    rw [List.getElem?_eq_none h1, List.getElem?_eq_none h2]

end TimeSlice

namespace TimeSlice

variable {T R : Type}

theorem processChunk_not_running (cfg : Config T R) (sys : Sys R)
    (h : sys.st.isRunning = false) : processChunk cfg sys = sys := by
  simp [processChunk, h]

theorem processChunk_paused (cfg : Config T R) (sys : Sys R)
    (h : sys.st.isPaused = true) : processChunk cfg sys = sys := by
  simp [processChunk, h]

theorem processChunk_cont (cfg : Config T R) (sys : Sys R)
    (h1 : sys.st.isRunning = true) (h2 : sys.st.isPaused = false)
    (he : chunkEnd cfg sys < cfg.data.length) :
    processChunk cfg sys =
      { st := { sys.st with timeoutId := some sys.nextId,
                            currentIndex := chunkEnd cfg sys,
                            result := chunkWrite cfg.handler cfg.data
                              sys.st.currentIndex (chunkEnd cfg sys) sys.st.result },
        timers := sys.timers ++ [sys.nextId],
        nextId := sys.nextId + 1,
        runId := sys.runId,
        trace := sys.trace
          ++ chunkCalls sys.runId sys.st.currentIndex (chunkEnd cfg sys)
          ++ [(sys.runId, Ev.progress (chunkEnd cfg sys) cfg.data.length)] } := by
  rw [chunkEnd] at he ⊢
  simp [processChunk, h1, h2, he]

theorem processChunk_done (cfg : Config T R) (sys : Sys R)
    (h1 : sys.st.isRunning = true) (h2 : sys.st.isPaused = false)
    (he : ¬ chunkEnd cfg sys < cfg.data.length) :
    processChunk cfg sys =
      { st := { sys.st with isRunning := false,
                            currentIndex := chunkEnd cfg sys,
                            result := chunkWrite cfg.handler cfg.data
                              sys.st.currentIndex (chunkEnd cfg sys) sys.st.result },
        timers := sys.timers,
        nextId := sys.nextId,
        runId := sys.runId,
        trace := sys.trace
          ++ chunkCalls sys.runId sys.st.currentIndex (chunkEnd cfg sys)
          ++ [(sys.runId, Ev.progress (chunkEnd cfg sys) cfg.data.length),
              (sys.runId, Ev.complete (chunkWrite cfg.handler cfg.data
                sys.st.currentIndex (chunkEnd cfg sys) sys.st.result))] } := by
  rw [chunkEnd] at he ⊢
  simp [processChunk, h1, h2, he]

theorem chunkEnd_eq_length (cfg : Config T R) (sys : Sys R)
    (he : ¬ chunkEnd cfg sys < cfg.data.length) :
    chunkEnd cfg sys = cfg.data.length := by
  have := Nat.min_le_right (sys.st.currentIndex + cfg.count) cfg.data.length
  rw [chunkEnd] at he ⊢
  omega

theorem startOp_running (cfg : Config T R) (sys : Sys R)
    (h : sys.st.isRunning = true) : startOp cfg sys = sys := by
  simp [startOp, h]

theorem startOp_fresh (cfg : Config T R) (sys : Sys R)
    (h : sys.st.isRunning = false) :
    startOp cfg sys =
      processChunk cfg
        { sys with
          st := { sys.st with isRunning := true, isPaused := false,
                              currentIndex := 0, result := [] },
          runId := sys.runId + 1 } := by
  simp [startOp, h]

theorem pauseOp_skip (sys : Sys R)
    (h : sys.st.isRunning = false ∨ sys.st.isPaused = true) :
    pauseOp sys = sys := by
  rcases h with h | h <;> simp [pauseOp, h]

theorem pauseOp_eq (sys : Sys R)
    (h1 : sys.st.isRunning = true) (h2 : sys.st.isPaused = false) :
    pauseOp sys =
      { sys with
        st := { sys.st with isPaused := true, timeoutId := none },
        timers := match sys.st.timeoutId with
          | some id => sys.timers.erase id
          | none => sys.timers } := by
  obtain ⟨⟨r, p, tid, ci, res⟩, tms, nid, rid, tr⟩ := sys
  subst h1; subst h2
  cases tid <;> simp [pauseOp]

theorem resumeOp_skip (cfg : Config T R) (sys : Sys R)
    (h : sys.st.isRunning = false ∨ sys.st.isPaused = false) :
    resumeOp cfg sys = sys := by
  rcases h with h | h <;> simp [resumeOp, h]

theorem resumeOp_eq (cfg : Config T R) (sys : Sys R)
    (h1 : sys.st.isRunning = true) (h2 : sys.st.isPaused = true) :
    resumeOp cfg sys
      = processChunk cfg { sys with st := { sys.st with isPaused := false } } := by
  simp [resumeOp, h1, h2]

theorem stopOp_skip (sys : Sys R) (h : sys.st.isRunning = false) :
    stopOp sys = sys := by
  simp [stopOp, h]

theorem stopOp_eq (sys : Sys R) (h : sys.st.isRunning = true) :
    stopOp sys =
      { sys with
        st := { sys.st with isRunning := false, isPaused := false,
                            timeoutId := none, currentIndex := 0, result := [] },
        timers := match sys.st.timeoutId with
          | some id => sys.timers.erase id
          | none => sys.timers } := by
  obtain ⟨⟨r, p, tid, ci, res⟩, tms, nid, rid, tr⟩ := sys
  subst h
  cases tid <;> simp [stopOp]

theorem fire_nil (cfg : Config T R) (sys : Sys R) (h : sys.timers = []) :
    fire cfg sys = sys := by
  unfold fire
  rw [h]

theorem fire_cons (cfg : Config T R) (sys : Sys R) {id : Nat} {rest : List Nat}
    (h : sys.timers = id :: rest) :
    fire cfg sys = processChunk cfg { sys with timers := rest } := by
  unfold fire
  rw [h]

theorem fires_nil (cfg : Config T R) (sys : Sys R) (h : sys.timers = []) :
    ∀ k, fires cfg k sys = sys := by
  intro k
  induction k with
  | zero => rfl
  | succ k ih => rw [fires, fire_nil cfg sys h, ih]

end TimeSlice

namespace TimeSlice

variable {T R : Type}

theorem callIdxs_append (t1 t2 : List (Nat × Ev R)) :
    callIdxs (t1 ++ t2) = callIdxs t1 ++ callIdxs t2 := by
  simp [callIdxs]

theorem callIdxs_chunkCalls (q c e : Nat) :
    callIdxs (chunkCalls q c e (R := R)) = List.range' c (e - c) := by
  simp only [callIdxs, chunkCalls, List.filterMap_map]
  have hf : ((fun p => match (p : Nat × Ev R).2 with
      | Ev.call i => some i
      | _ => none) ∘ fun i => (q, Ev.call i)) = some := by
    funext i
    rfl
  rw [hf, List.filterMap_some]

theorem callIdxs_progress (q c t : Nat) :
    callIdxs [(q, Ev.progress c t (R := R))] = [] := rfl

theorem callIdxs_complete (q : Nat) (res : List (Option R)) :
    callIdxs [(q, Ev.complete res)] = [] := rfl

theorem progressT_append (t1 t2 : List (Nat × Ev R)) :
    progressT (t1 ++ t2) = progressT t1 ++ progressT t2 := by
  simp [progressT]

theorem progressT_chunkCalls (q c e : Nat) :
    progressT (chunkCalls q c e (R := R)) = [] := by
  simp [progressT, chunkCalls, List.filterMap_map]

theorem completionsT_append (t1 t2 : List (Nat × Ev R)) :
    completionsT (t1 ++ t2) = completionsT t1 ++ completionsT t2 := by
  simp [completionsT]

theorem completionsT_chunkCalls (q c e : Nat) :
    completionsT (chunkCalls q c e (R := R)) = [] := by
  simp [completionsT, chunkCalls, List.filterMap_map]

theorem completionsT_progress (q c t : Nat) :
    completionsT [(q, Ev.progress c t (R := R))] = [] := rfl

theorem runEvents_append (r : Nat) (t1 t2 : List (Nat × Ev R)) :
    runEvents r (t1 ++ t2) = runEvents r t1 ++ runEvents r t2 := by
  simp [runEvents]

theorem runEvents_chunkCalls_self (r c e : Nat) :
    runEvents r (chunkCalls r c e (R := R))
      = (List.range' c (e - c)).map Ev.call := by
  simp only [runEvents, chunkCalls, List.filterMap_map]
  have hf : ((fun p => if (p : Nat × Ev R).1 = r then some p.2 else none)
      ∘ fun i => (r, Ev.call i)) = some ∘ Ev.call := by
    funext i
    simp
  rw [hf, List.filterMap_eq_map]

theorem runEvents_chunkCalls_ne {q r : Nat} (h : q ≠ r) (c e : Nat) :
    runEvents r (chunkCalls q c e (R := R)) = [] := by
  simp [runEvents, chunkCalls, List.filterMap_map, h]

theorem runEvents_single_self (r : Nat) (ev : Ev R) :
    runEvents r [(r, ev)] = [ev] := by
  simp [runEvents]

theorem runEvents_single_ne {q r : Nat} (h : q ≠ r) (ev : Ev R) :
    runEvents r [(q, ev)] = [] := by
  simp [runEvents, h]

theorem cbEvs_append (l1 l2 : List (Ev R)) :
    cbEvs (l1 ++ l2) = cbEvs l1 ++ cbEvs l2 := by
  simp [cbEvs]

theorem cbEvs_calls (l : List Nat) :
    cbEvs ((l.map Ev.call : List (Ev R))) = [] := by
  simp [cbEvs, List.filter_map]

theorem cbEvs_progress (c t : Nat) :
    cbEvs [(Ev.progress c t : Ev R)] = [Ev.progress c t] := rfl

theorem cbEvs_complete (res : List (Option R)) :
    cbEvs [(Ev.complete res : Ev R)] = [Ev.complete res] := rfl

theorem completions_append (l1 l2 : List (Ev R)) :
    completions (l1 ++ l2) = completions l1 ++ completions l2 := by
  simp [completions]

theorem completions_calls (l : List Nat) :
    completions ((l.map Ev.call : List (Ev R))) = [] := by
  simp [completions, List.filterMap_map]

theorem completions_progress (c t : Nat) :
    completions [(Ev.progress c t : Ev R)] = [] := rfl

theorem completions_complete (res : List (Option R)) :
    completions [(Ev.complete res : Ev R)] = [res] := rfl

theorem newEvents_of_append (s t : Sys R) (l : List (Nat × Ev R))
    (h : t.trace = s.trace ++ l) : newEvents s t = l := by
  rw [newEvents, h, List.drop_left]

theorem newEvents_refl (s t : Sys R) (h : t.trace = s.trace) :
    newEvents s t = [] := by
  rw [newEvents, h, List.drop_length]

end TimeSlice

namespace TimeSlice

variable {T R : Type}

theorem range'_glue {a b c : Nat} (hab : a ≤ b) (hbc : b ≤ c) :
    List.range' a (b - a) ++ List.range' b (c - b) = List.range' a (c - a) := by
  have h := List.range'_append a (b - a) (c - b) 1
  have h1 : a + 1 * (b - a) = b := by omega
  have h2 : c - b + (b - a) = c - a := by omega
  rw [h1, h2] at h
  exact h

theorem drainRun (cfg : Config T R) (hc : 0 < cfg.count) :
    ∀ (fuel : Nat) (sys : Sys R) (idv : Nat),
      sys.st.isRunning = true → sys.st.isPaused = false →
      sys.st.result = prefixRes cfg sys.st.currentIndex →
      sys.timers = [idv] →
      sys.st.currentIndex < cfg.data.length →
      cfg.data.length - sys.st.currentIndex ≤ fuel →
      ∃ tr' : List (Nat × Ev R),
        (fires cfg fuel sys).st.isRunning = false
        ∧ (fires cfg fuel sys).st.currentIndex = cfg.data.length
        ∧ (fires cfg fuel sys).st.result = prefixRes cfg cfg.data.length
        ∧ (fires cfg fuel sys).timers = []
        ∧ (fires cfg fuel sys).trace = sys.trace ++ tr'
        ∧ callIdxs tr'
            = List.range' sys.st.currentIndex
                (cfg.data.length - sys.st.currentIndex)
        ∧ completionsT tr' = [prefixRes cfg cfg.data.length] := by
  intro fuel
  induction fuel with
  | zero =>
      intro sys idv _ _ _ _ hlt hfuel
      omega
  | succ k ih =>
      intro sys idv h1 h2 hres htimers hlt hfuel
      obtain ⟨⟨r, p, tid, ci, res⟩, tms, nid, rid, tr⟩ := sys
      simp only at h1 h2 hres htimers hlt hfuel ⊢
      subst h1
      subst h2
      subst hres
      subst htimers
      set sys1 : Sys R :=
        { st := { isRunning := true, isPaused := false, timeoutId := tid,
                  currentIndex := ci, result := prefixRes cfg ci },
          timers := [], nextId := nid, runId := rid, trace := tr } with hsys1
      have hfire : fire cfg
          { st := { isRunning := true, isPaused := false, timeoutId := tid,
                    currentIndex := ci, result := prefixRes cfg ci },
            timers := [idv], nextId := nid, runId := rid, trace := tr }
          = processChunk cfg sys1 := rfl
      have hce : chunkEnd cfg sys1 = min (ci + cfg.count) cfg.data.length := rfl
      have hciE : ci ≤ min (ci + cfg.count) cfg.data.length := by omega
      have hcw : chunkWrite cfg.handler cfg.data ci
          (min (ci + cfg.count) cfg.data.length) (prefixRes cfg ci)
          = prefixRes cfg (min (ci + cfg.count) cfg.data.length) := by
        have h3 : ci + (min (ci + cfg.count) cfg.data.length - ci)
            = min (ci + cfg.count) cfg.data.length := by omega
        rw [← h3]
        exact chunkWrite_prefixRes cfg _ ci (by omega)
      by_cases hcase : min (ci + cfg.count) cfg.data.length < cfg.data.length
      · -- the chunk does not finish the data: a new timeout is scheduled
        have hpc := processChunk_cont cfg sys1 rfl rfl (by rwa [hce])
        rw [hce, hcw] at hpc
        simp only [hsys1] at hpc
        obtain ⟨tr'', hrun2, hcur2, hres2, htm2, htr2, hcalls2, hcomp2⟩ :=
          ih (processChunk cfg sys1) nid
            (by rw [hpc]) (by rw [hpc]) (by rw [hpc]) (by rw [hpc]; simp)
            (by rw [hpc]; exact hcase)
            (by rw [hpc]; simp only; omega)
        rw [hpc] at hcalls2
        simp only at hcalls2
        refine ⟨chunkCalls rid ci (min (ci + cfg.count) cfg.data.length)
          ++ [(rid, Ev.progress (min (ci + cfg.count) cfg.data.length)
                cfg.data.length)] ++ tr'', ?_, ?_, ?_, ?_, ?_, ?_, ?_⟩
        · rw [fires, hfire]; exact hrun2
        · rw [fires, hfire]; exact hcur2
        · rw [fires, hfire]; exact hres2
        · rw [fires, hfire]; exact htm2
        · rw [fires, hfire, htr2, hpc]
          simp [List.append_assoc]
        · rw [callIdxs_append, callIdxs_append, callIdxs_chunkCalls,
              callIdxs_progress, hcalls2]
          rw [List.append_nil]
          exact range'_glue hciE (by omega)
        · rw [completionsT_append, completionsT_append, completionsT_chunkCalls,
              completionsT_progress, hcomp2]
          simp
      · -- the chunk finishes the data: completion, no new timeout
        have hn : min (ci + cfg.count) cfg.data.length = cfg.data.length := by
          omega
        have hpc := processChunk_done cfg sys1 rfl rfl (by rwa [hce])
        rw [hce, hcw, hn] at hpc
        simp only [hsys1] at hpc
        have hnil : fires cfg k (processChunk cfg sys1) = processChunk cfg sys1 :=
          fires_nil cfg _ (by rw [hpc]) k
        refine ⟨chunkCalls rid ci cfg.data.length
          ++ [(rid, Ev.progress cfg.data.length cfg.data.length),
              (rid, Ev.complete (prefixRes cfg cfg.data.length))],
          ?_, ?_, ?_, ?_, ?_, ?_, ?_⟩
        · rw [fires, hfire, hnil, hpc]
        · rw [fires, hfire, hnil, hpc]
        · rw [fires, hfire, hnil, hpc]
        · rw [fires, hfire, hnil, hpc]
        · rw [fires, hfire, hnil, hpc]
          simp [List.append_assoc]
        · rw [callIdxs_append, callIdxs_chunkCalls]
          simp [callIdxs]
        · rw [completionsT_append, completionsT_chunkCalls]
          simp [completionsT]

end TimeSlice

namespace TimeSlice

variable {T R : Type}

/-- Claim C1: for every non-empty `data` and every handler, a run started
by `start()` that proceeds to completion with no intervening `pause()` or
`stop()` invokes `onComplete` exactly once, with a result array of the same
length as `data` whose entry at every index `i` is `handler(data[i], i)`,
and invokes the handler exactly once per element in strictly ascending
index order. -/
theorem run_completes_with_mapped_results (cfg : Config T R)
    (_hne : cfg.data ≠ []) (hc : 0 < cfg.count) :
    completionsT (fires cfg cfg.data.length (startOp cfg (initSys R))).trace
      = [prefixRes cfg cfg.data.length]
    ∧ callIdxs (fires cfg cfg.data.length (startOp cfg (initSys R))).trace
      = List.range cfg.data.length
    ∧ (prefixRes cfg cfg.data.length).length = cfg.data.length
    ∧ ∀ i (hi : i < cfg.data.length),
        (prefixRes cfg cfg.data.length)[i]?
          = some (some (cfg.handler cfg.data[i] i)) := by
  have hpost : (prefixRes cfg cfg.data.length).length = cfg.data.length :=
    prefixRes_length cfg _
  have hpt : ∀ i (hi : i < cfg.data.length),
      (prefixRes cfg cfg.data.length)[i]?
        = some (some (cfg.handler cfg.data[i] i)) := by
    intro i hi
    exact prefixRes_getElem cfg hi hi
  set sys0 : Sys R :=
    { st := { isRunning := true, isPaused := false, timeoutId := none,
              currentIndex := 0, result := [] },
      timers := [], nextId := 0, runId := 1, trace := [] } with hsys0
  have hstart : startOp cfg (initSys R) = processChunk cfg sys0 := by
    rw [startOp_fresh cfg (initSys R) rfl]
    rfl
  have hce : chunkEnd cfg sys0 = min (0 + cfg.count) cfg.data.length := rfl
  have hcw : chunkWrite cfg.handler cfg.data 0
      (min (0 + cfg.count) cfg.data.length) ([] : List (Option R))
      = prefixRes cfg (min (0 + cfg.count) cfg.data.length) := by
    have h0 : ([] : List (Option R)) = prefixRes cfg 0 := rfl
    have h3 : 0 + (min (0 + cfg.count) cfg.data.length)
        = min (0 + cfg.count) cfg.data.length := by omega
    rw [h0, ← h3]
    exact chunkWrite_prefixRes cfg _ 0 (by omega)
  by_cases hcase : min (0 + cfg.count) cfg.data.length < cfg.data.length
  · have hpc := processChunk_cont cfg sys0 rfl rfl (by rwa [hce])
    rw [hce, hcw] at hpc
    simp only [hsys0] at hpc
    have hlt0 : (0 : Nat) < cfg.data.length := by omega
    obtain ⟨tr', hrun2, hcur2, hres2, htm2, htr2, hcalls2, hcomp2⟩ :=
      drainRun cfg hc cfg.data.length (processChunk cfg sys0) 0
        (by rw [hpc]) (by rw [hpc]) (by rw [hpc]) (by rw [hpc]; simp)
        (by rw [hpc]; exact hcase)
        (by rw [hpc]; simp only; omega)
    rw [hpc] at hcalls2
    simp only at hcalls2
    constructor
    · rw [hstart, htr2, hpc]
      dsimp only
      rw [List.nil_append]
      rw [completionsT_append, completionsT_append, completionsT_chunkCalls,
          completionsT_progress, hcomp2]
      simp
    refine ⟨?_, hpost, hpt⟩
    rw [hstart, htr2, hpc]
    dsimp only
    rw [List.nil_append]
    rw [callIdxs_append, callIdxs_append, callIdxs_chunkCalls,
        callIdxs_progress, hcalls2]
    rw [List.append_nil]
    have hglue := range'_glue (a := 0)
      (b := min (0 + cfg.count) cfg.data.length) (c := cfg.data.length)
      (by omega) (by omega)
    simp only [Nat.sub_zero] at hglue ⊢
    rw [hglue, List.range_eq_range']
  · have hpc := processChunk_done cfg sys0 rfl rfl (by rwa [hce])
    have hn : min (0 + cfg.count) cfg.data.length = cfg.data.length := by
      have := Nat.min_le_right (0 + cfg.count) cfg.data.length
      omega
    rw [hce, hcw, hn] at hpc
    simp only [hsys0] at hpc
    have hnil : fires cfg cfg.data.length (processChunk cfg sys0)
        = processChunk cfg sys0 :=
      fires_nil cfg _ (by rw [hpc]) cfg.data.length
    constructor
    · rw [hstart, hnil, hpc]
      simp only [List.nil_append]
      rw [completionsT_append, completionsT_chunkCalls]
      simp [completionsT]
    refine ⟨?_, hpost, hpt⟩
    rw [hstart, hnil, hpc]
    simp only [List.nil_append]
    rw [callIdxs_append, callIdxs_chunkCalls]
    simp [callIdxs, List.range_eq_range']

/-- Witness for C1 at the spec's concrete scenario. -/
theorem run_completes_with_mapped_results_witness :
    cfgA.data ≠ [] ∧ 0 < cfgA.count
    ∧ (completionsT (fires cfgA cfgA.data.length
          (startOp cfgA (initSys Nat))).trace
        = [prefixRes cfgA cfgA.data.length]
      ∧ callIdxs (fires cfgA cfgA.data.length
          (startOp cfgA (initSys Nat))).trace
        = List.range cfgA.data.length
      ∧ (prefixRes cfgA cfgA.data.length).length = cfgA.data.length
      ∧ ∀ i (hi : i < cfgA.data.length),
          (prefixRes cfgA cfgA.data.length)[i]?
            = some (some (cfgA.handler cfgA.data[i] i))) :=
  ⟨by decide, by decide,
    run_completes_with_mapped_results cfgA (by decide) (by decide)⟩

end TimeSlice

namespace TimeSlice

variable {T R : Type}

theorem RunShape_nil (n : Nat) : RunShape n ([] : List (Ev R)) :=
  ⟨[], [], rfl, List.chain'_nil, Or.inl rfl⟩

theorem runEvents_fresh {q r : Nat} (tr : List (Nat × Ev R))
    (htags : ∀ p ∈ tr, (p : Nat × Ev R).1 ≤ q) (h : q < r) :
    runEvents r tr = [] := by
  rw [runEvents, List.filterMap_eq_nil_iff]
  intro p hp
  have hle := htags p hp
  rw [if_neg]
  omega

theorem inv_init (cfg : Config T R) : Inv cfg (initSys R) := by
  refine ⟨?_, ?_, ?_, ?_, ?_, ?_, ?_⟩
  · intro h; cases h
  · intro h; cases h
  · exact Or.inl rfl
  · intro p hp; cases hp
  · intro h; cases h
  · intro _ r; exact RunShape_nil cfg.data.length
  · intro _ h; cases h

theorem inv_processChunk (cfg : Config T R) (sys : Sys R)
    (h1 : sys.st.isRunning = true) (h2 : sys.st.isPaused = false)
    (htimers : sys.timers = [])
    (htags : ∀ p ∈ sys.trace, (p : Nat × Ev R).1 ≤ sys.runId)
    (hshapes : 0 < cfg.count →
        ∀ r, RunShape cfg.data.length (runEvents r sys.trace))
    (hnc : completions (runEvents sys.runId sys.trace) = [])
    (hopen : 0 < cfg.count → ∃ cs : List Nat,
        cbEvs (runEvents sys.runId sys.trace)
          = cs.map (fun c => Ev.progress c cfg.data.length)
        ∧ List.Chain' (fun a b => a < b) cs
        ∧ (cs.getLast? = none
            ∨ (cs.getLast? = some sys.st.currentIndex
                ∧ sys.st.currentIndex < cfg.data.length))) :
    Inv cfg (processChunk cfg sys) := by
  obtain ⟨⟨r0, p0, tid, ci, res⟩, tms, nid, rid, tr⟩ := sys
  simp only at h1 h2 htimers htags hshapes hnc hopen
  subst h1
  subst h2
  subst htimers
  set sys1 : Sys R :=
    { st := { isRunning := true, isPaused := false, timeoutId := tid,
              currentIndex := ci, result := res },
      timers := [], nextId := nid, runId := rid, trace := tr } with hsys1
  have hce : chunkEnd cfg sys1 = min (ci + cfg.count) cfg.data.length := rfl
  -- the callback events of the current run after this step
  have hrunNew : ∀ ev : Ev R,
      runEvents rid (tr ++ chunkCalls rid ci (min (ci + cfg.count) cfg.data.length)
          ++ [(rid, ev)])
        = runEvents rid tr
          ++ (List.range' ci (min (ci + cfg.count) cfg.data.length - ci)).map Ev.call
          ++ [ev] := by
    intro ev
    rw [runEvents_append, runEvents_append, runEvents_chunkCalls_self,
        runEvents_single_self]
  by_cases hcase : min (ci + cfg.count) cfg.data.length < cfg.data.length
  · have hpc := processChunk_cont cfg sys1 rfl rfl (by rwa [hce])
    rw [hce] at hpc
    simp only [hsys1] at hpc
    rw [hpc]
    refine ⟨?_, ?_, ?_, ?_, ?_, ?_, ?_⟩
    · intro h; cases h
    · intro _; exact hcase
    · refine Or.inr ⟨nid, ?_, rfl, rfl, rfl⟩
      simp
    · intro p hp
      simp only [List.append_assoc, List.mem_append] at hp
      rcases hp with hp | hp
      · exact htags p hp
      · rcases hp with hp | hp
        · rw [chunkCalls] at hp
          simp only [List.mem_map] at hp
          obtain ⟨i, _, hpi⟩ := hp
          rw [← hpi]
        · simp only [List.mem_singleton] at hp
          rw [hp]
    · intro _
      rw [hrunNew, completions_append, completions_append, hnc,
          completions_calls, completions_progress]
      rfl
    · intro hcnt r
      by_cases hr : r = rid
      · subst hr
        obtain ⟨cs, hcb, hch, hlast⟩ := hopen hcnt
        refine ⟨cs ++ [min (ci + cfg.count) cfg.data.length], [], ?_, ?_, Or.inl rfl⟩
        · rw [hrunNew, cbEvs_append, cbEvs_append, hcb, cbEvs_calls,
              cbEvs_progress, List.map_append]
          simp
        · rw [List.chain'_append]
          refine ⟨hch, List.chain'_singleton _, ?_⟩
          intro x hx y hy
          simp only [List.head?_cons, Option.mem_def, Option.some.injEq] at hy
          subst hy
          rcases hlast with hl | ⟨hl, hcurlt⟩
          · rw [hl] at hx; cases hx
          · rw [hl] at hx
            simp only [Option.mem_def, Option.some.injEq] at hx
            subst hx
            omega
      · obtain ⟨cs, tail, hcb, hch, htail⟩ := hshapes hcnt r
        refine ⟨cs, tail, ?_, hch, htail⟩
        rw [runEvents_append, runEvents_append,
            runEvents_chunkCalls_ne (fun h => hr h.symm),
            runEvents_single_ne (fun h => hr h.symm)]
        simpa using hcb
    · intro hcnt _
      obtain ⟨cs, hcb, hch, hlast⟩ := hopen hcnt
      refine ⟨cs ++ [min (ci + cfg.count) cfg.data.length], ?_, ?_, ?_⟩
      · rw [hrunNew, cbEvs_append, cbEvs_append, hcb, cbEvs_calls,
            cbEvs_progress, List.map_append]
        simp
      · rw [List.chain'_append]
        refine ⟨hch, List.chain'_singleton _, ?_⟩
        intro x hx y hy
        simp only [List.head?_cons, Option.mem_def, Option.some.injEq] at hy
        subst hy
        rcases hlast with hl | ⟨hl, hcurlt⟩
        · rw [hl] at hx; cases hx
        · rw [hl] at hx
          simp only [Option.mem_def, Option.some.injEq] at hx
          subst hx
          omega
      · exact List.getLast?_concat _
  · have hpc := processChunk_done cfg sys1 rfl rfl (by rwa [hce])
    have hn : min (ci + cfg.count) cfg.data.length = cfg.data.length := by
      have := Nat.min_le_right (ci + cfg.count) cfg.data.length
      omega
    rw [hce] at hpc
    simp only [hsys1] at hpc
    rw [hpc]
    refine ⟨?_, ?_, ?_, ?_, ?_, ?_, ?_⟩
    · intro h; cases h
    · intro h; cases h
    · exact Or.inl rfl
    · intro p hp
      simp only [List.append_assoc, List.mem_append] at hp
      rcases hp with hp | hp
      · exact htags p hp
      · rcases hp with hp | hp
        · rw [chunkCalls] at hp
          simp only [List.mem_map] at hp
          obtain ⟨i, _, hpi⟩ := hp
          rw [← hpi]
        · simp only [List.mem_cons, List.mem_singleton] at hp
          rcases hp with hp | hp
          · rw [hp]
          · rcases hp with hp | hp
            · rw [hp]
            · cases hp
    · intro h; cases h
    · intro hcnt r
      by_cases hr : r = rid
      · subst hr
        obtain ⟨cs, hcb, hch, hlast⟩ := hopen hcnt
        have hrun2 : runEvents r
            (tr ++ chunkCalls r ci (min (ci + cfg.count) cfg.data.length)
              ++ [(r, Ev.progress (min (ci + cfg.count) cfg.data.length)
                    cfg.data.length),
                  (r, Ev.complete (chunkWrite cfg.handler cfg.data ci
                    (min (ci + cfg.count) cfg.data.length) res))])
            = runEvents r tr
              ++ (List.range' ci
                    (min (ci + cfg.count) cfg.data.length - ci)).map Ev.call
              ++ [Ev.progress (min (ci + cfg.count) cfg.data.length)
                    cfg.data.length,
                  Ev.complete (chunkWrite cfg.handler cfg.data ci
                    (min (ci + cfg.count) cfg.data.length) res)] := by
          rw [runEvents_append, runEvents_append, runEvents_chunkCalls_self]
          congr 1
          simp [runEvents]
        refine ⟨cs ++ [min (ci + cfg.count) cfg.data.length],
          [Ev.complete (chunkWrite cfg.handler cfg.data ci
            (min (ci + cfg.count) cfg.data.length) res)], ?_, ?_, Or.inr ⟨_, rfl⟩⟩
        · rw [hrun2, cbEvs_append, cbEvs_append, hcb, cbEvs_calls,
              List.map_append]
          simp [cbEvs]
        · rw [List.chain'_append]
          refine ⟨hch, List.chain'_singleton _, ?_⟩
          intro x hx y hy
          simp only [List.head?_cons, Option.mem_def, Option.some.injEq] at hy
          subst hy
          rcases hlast with hl | ⟨hl, hcurlt⟩
          · rw [hl] at hx; cases hx
          · rw [hl] at hx
            simp only [Option.mem_def, Option.some.injEq] at hx
            subst hx
            omega
      · obtain ⟨cs, tail, hcb, hch, htail⟩ := hshapes hcnt r
        refine ⟨cs, tail, ?_, hch, htail⟩
        rw [runEvents_append, runEvents_append,
            runEvents_chunkCalls_ne (fun h => hr h.symm)]
        have hsplit : ([(rid, Ev.progress (min (ci + cfg.count) cfg.data.length)
                cfg.data.length),
              (rid, Ev.complete (chunkWrite cfg.handler cfg.data ci
                (min (ci + cfg.count) cfg.data.length) res))] : List (Nat × Ev R))
            = [(rid, Ev.progress (min (ci + cfg.count) cfg.data.length)
                cfg.data.length)]
              ++ [(rid, Ev.complete (chunkWrite cfg.handler cfg.data ci
                (min (ci + cfg.count) cfg.data.length) res))] := rfl
        rw [hsplit, runEvents_append,
            runEvents_single_ne (fun h => hr h.symm),
            runEvents_single_ne (fun h => hr h.symm)]
        simpa using hcb
    · intro _ h; cases h

end TimeSlice

namespace TimeSlice

variable {T R : Type}

theorem inv_startOp (cfg : Config T R) (sys : Sys R) (h : Inv cfg sys) :
    Inv cfg (startOp cfg sys) := by
  obtain ⟨hpr, hcl, hto, htt, hnc, hsh, hop⟩ := h
  by_cases h1 : sys.st.isRunning = true
  · rw [startOp_running cfg sys h1]
    exact ⟨hpr, hcl, hto, htt, hnc, hsh, hop⟩
  · simp only [Bool.not_eq_true] at h1
    rw [startOp_fresh cfg sys h1]
    apply inv_processChunk
    · rfl
    · rfl
    · rcases hto with ht | ⟨id, _, _, hrun, _⟩
      · exact ht
      · rw [hrun] at h1; cases h1
    · intro p hp
      exact le_trans (htt p hp) (Nat.le_succ _)
    · intro hcnt r
      exact hsh hcnt r
    · show completions (runEvents (sys.runId + 1) sys.trace) = []
      rw [runEvents_fresh sys.trace htt (Nat.lt_succ_self _)]
      rfl
    · intro _
      refine ⟨[], ?_, List.chain'_nil, Or.inl rfl⟩
      show cbEvs (runEvents (sys.runId + 1) sys.trace) = _
      rw [runEvents_fresh sys.trace htt (Nat.lt_succ_self _)]
      rfl

theorem inv_pauseOp (cfg : Config T R) (sys : Sys R) (h : Inv cfg sys) :
    Inv cfg (pauseOp sys) := by
  obtain ⟨hpr, hcl, hto, htt, hnc, hsh, hop⟩ := h
  by_cases h1 : sys.st.isRunning = true
  · by_cases h2 : sys.st.isPaused = true
    · rw [pauseOp_skip sys (Or.inr h2)]
      exact ⟨hpr, hcl, hto, htt, hnc, hsh, hop⟩
    · simp only [Bool.not_eq_true] at h2
      rw [pauseOp_eq sys h1 h2]
      refine ⟨?_, ?_, ?_, ?_, ?_, ?_, ?_⟩
      · intro _; exact h1
      · intro _; exact hcl h1
      · refine Or.inl ?_
        show (match sys.st.timeoutId with
          | some id => sys.timers.erase id
          | none => sys.timers) = []
        rcases hto with ht | ⟨id, ht, htid, _, _⟩
        · cases htid0 : sys.st.timeoutId <;> simp [ht]
        · rw [htid, ht]
          simp
      · exact htt
      · intro _; exact hnc h1
      · exact hsh
      · intro hcnt _
        exact hop hcnt h1
  · simp only [Bool.not_eq_true] at h1
    rw [pauseOp_skip sys (Or.inl h1)]
    exact ⟨hpr, hcl, hto, htt, hnc, hsh, hop⟩

theorem inv_resumeOp (cfg : Config T R) (sys : Sys R) (h : Inv cfg sys) :
    Inv cfg (resumeOp cfg sys) := by
  obtain ⟨hpr, hcl, hto, htt, hnc, hsh, hop⟩ := h
  by_cases h1 : sys.st.isRunning = true
  · by_cases h2 : sys.st.isPaused = true
    · rw [resumeOp_eq cfg sys h1 h2]
      apply inv_processChunk
      · exact h1
      · rfl
      · rcases hto with ht | ⟨id, _, _, _, hpz⟩
        · exact ht
        · rw [hpz] at h2; cases h2
      · exact htt
      · exact hsh
      · exact hnc h1
      · intro hcnt
        obtain ⟨cs, hcb, hch, hlast⟩ := hop hcnt h1
        exact ⟨cs, hcb, hch, Or.inr ⟨hlast, hcl h1⟩⟩
    · simp only [Bool.not_eq_true] at h2
      rw [resumeOp_skip cfg sys (Or.inr h2)]
      exact ⟨hpr, hcl, hto, htt, hnc, hsh, hop⟩
  · simp only [Bool.not_eq_true] at h1
    rw [resumeOp_skip cfg sys (Or.inl h1)]
    exact ⟨hpr, hcl, hto, htt, hnc, hsh, hop⟩

theorem inv_stopOp (cfg : Config T R) (sys : Sys R) (h : Inv cfg sys) :
    Inv cfg (stopOp sys) := by
  obtain ⟨hpr, hcl, hto, htt, hnc, hsh, hop⟩ := h
  by_cases h1 : sys.st.isRunning = true
  · rw [stopOp_eq sys h1]
    refine ⟨?_, ?_, ?_, ?_, ?_, ?_, ?_⟩
    · intro hx; cases hx
    · intro hx; cases hx
    · refine Or.inl ?_
      show (match sys.st.timeoutId with
        | some id => sys.timers.erase id
        | none => sys.timers) = []
      rcases hto with ht | ⟨id, ht, htid, _, _⟩
      · cases htid0 : sys.st.timeoutId <;> simp [ht]
      · rw [htid, ht]
        simp
    · exact htt
    · intro hx; cases hx
    · exact hsh
    · intro _ hx; cases hx
  · simp only [Bool.not_eq_true] at h1
    rw [stopOp_skip sys h1]
    exact ⟨hpr, hcl, hto, htt, hnc, hsh, hop⟩

theorem inv_fire (cfg : Config T R) (sys : Sys R) (h : Inv cfg sys) :
    Inv cfg (fire cfg sys) := by
  obtain ⟨hpr, hcl, hto, htt, hnc, hsh, hop⟩ := h
  cases htm : sys.timers with
  | nil =>
      rw [fire_nil cfg sys htm]
      exact ⟨hpr, hcl, hto, htt, hnc, hsh, hop⟩
  | cons id rest =>
      rcases hto with ht | ⟨id', ht, htid, h1, h2⟩
      · rw [ht] at htm; cases htm
      · rw [ht] at htm
        injection htm with hid hrest
        rw [fire_cons cfg sys ht]
        apply inv_processChunk
        · exact h1
        · exact h2
        · rfl
        · exact htt
        · exact hsh
        · exact hnc h1
        · intro hcnt
          obtain ⟨cs, hcb, hch, hlast⟩ := hop hcnt h1
          exact ⟨cs, hcb, hch, Or.inr ⟨hlast, hcl h1⟩⟩

theorem inv_stepAct (cfg : Config T R) (sys : Sys R) (a : Act)
    (h : Inv cfg sys) : Inv cfg (stepAct cfg sys a) := by
  cases a with
  | start => exact inv_startOp cfg sys h
  | pause => exact inv_pauseOp cfg sys h
  | resume => exact inv_resumeOp cfg sys h
  | stop => exact inv_stopOp cfg sys h
  | fire => exact inv_fire cfg sys h

theorem inv_exec (cfg : Config T R) :
    ∀ (acts : List Act) (sys : Sys R), Inv cfg sys → Inv cfg (exec cfg acts sys)
  | [], _, h => h
  | _ :: rest, sys, h =>
      inv_exec cfg rest (stepAct cfg sys _) (inv_stepAct cfg sys _ h)

theorem inv_reachable (cfg : Config T R) (acts : List Act) :
    Inv cfg (exec cfg acts (initSys R)) :=
  inv_exec cfg acts (initSys R) (inv_init cfg)

end TimeSlice

namespace TimeSlice

variable {T R : Type}

theorem processChunk_frame (cfg : Config T R) (sys : Sys R) :
    (processChunk cfg sys).runId = sys.runId
    ∧ ∃ l, (processChunk cfg sys).trace = sys.trace ++ l
        ∧ ∀ p ∈ l, (p : Nat × Ev R).1 = sys.runId := by
  by_cases h1 : sys.st.isRunning = true
  · by_cases h2 : sys.st.isPaused = true
    · rw [processChunk_paused cfg sys h2]
      exact ⟨rfl, [], (List.append_nil _).symm, by intro p hp; cases hp⟩
    · simp only [Bool.not_eq_true] at h2
      by_cases hcase : chunkEnd cfg sys < cfg.data.length
      · rw [processChunk_cont cfg sys h1 h2 hcase]
        refine ⟨rfl, chunkCalls sys.runId sys.st.currentIndex (chunkEnd cfg sys)
          ++ [(sys.runId, Ev.progress (chunkEnd cfg sys) cfg.data.length)],
          by simp, ?_⟩
        intro p hp
        simp only [List.mem_append, chunkCalls, List.mem_map,
          List.mem_singleton] at hp
        rcases hp with ⟨i, _, hpi⟩ | hp
        · rw [← hpi]
        · rw [hp]
      · rw [processChunk_done cfg sys h1 h2 hcase]
        refine ⟨rfl, chunkCalls sys.runId sys.st.currentIndex (chunkEnd cfg sys)
          ++ [(sys.runId, Ev.progress (chunkEnd cfg sys) cfg.data.length),
              (sys.runId, Ev.complete (chunkWrite cfg.handler cfg.data
                sys.st.currentIndex (chunkEnd cfg sys) sys.st.result))],
          by simp, ?_⟩
        intro p hp
        simp only [List.mem_append, chunkCalls, List.mem_map,
          List.mem_cons, List.mem_singleton] at hp
        rcases hp with ⟨i, _, hpi⟩ | hp | hp | hp
        · rw [← hpi]
        · rw [hp]
        · rw [hp]
        · cases hp
  · simp only [Bool.not_eq_true] at h1
    rw [processChunk_not_running cfg sys h1]
    exact ⟨rfl, [], (List.append_nil _).symm, by intro p hp; cases hp⟩

theorem runEvents_tags_ne {r : Nat} (l : List (Nat × Ev R))
    (h : ∀ p ∈ l, (p : Nat × Ev R).1 ≠ r) : runEvents r l = [] := by
  rw [runEvents, List.filterMap_eq_nil_iff]
  intro p hp
  rw [if_neg (h p hp)]

theorem dead_step (cfg : Config T R) (sys : Sys R) (a : Act) {r : Nat}
    (hd : Dead r sys) :
    Dead r (stepAct cfg sys a)
    ∧ runEvents r (stepAct cfg sys a).trace = runEvents r sys.trace := by
  rcases hd with hlt | ⟨hr, hnrun, htm⟩
  · -- a past run: every appended event is tagged with the current or a
    -- later run index, both above r
    have hframe : sys.runId ≤ (stepAct cfg sys a).runId
        ∧ ∃ l, (stepAct cfg sys a).trace = sys.trace ++ l
            ∧ ∀ p ∈ l, sys.runId ≤ (p : Nat × Ev R).1 := by
      cases a with
      | start =>
          by_cases h1 : sys.st.isRunning = true
          · rw [stepAct, startOp_running cfg sys h1]
            exact ⟨le_refl _, [], (List.append_nil _).symm,
              by intro p hp; cases hp⟩
          · simp only [Bool.not_eq_true] at h1
            rw [stepAct, startOp_fresh cfg sys h1]
            obtain ⟨hrid, l, htr, htag⟩ := processChunk_frame cfg
              { sys with
                st := { sys.st with isRunning := true, isPaused := false,
                                    currentIndex := 0, result := [] },
                runId := sys.runId + 1 }
            refine ⟨by rw [hrid]; exact Nat.le_succ _, l, htr, ?_⟩
            intro p hp
            rw [htag p hp]
            exact Nat.le_succ _
      | pause =>
          by_cases h1 : sys.st.isRunning = true
          · by_cases h2 : sys.st.isPaused = true
            · rw [stepAct, pauseOp_skip sys (Or.inr h2)]
              exact ⟨le_refl _, [], (List.append_nil _).symm,
                by intro p hp; cases hp⟩
            · simp only [Bool.not_eq_true] at h2
              rw [stepAct, pauseOp_eq sys h1 h2]
              exact ⟨le_refl _, [], (List.append_nil _).symm,
                by intro p hp; cases hp⟩
          · simp only [Bool.not_eq_true] at h1
            rw [stepAct, pauseOp_skip sys (Or.inl h1)]
            exact ⟨le_refl _, [], (List.append_nil _).symm,
              by intro p hp; cases hp⟩
      | resume =>
          by_cases h1 : sys.st.isRunning = true
          · by_cases h2 : sys.st.isPaused = true
            · rw [stepAct, resumeOp_eq cfg sys h1 h2]
              obtain ⟨hrid, l, htr, htag⟩ := processChunk_frame cfg
                { sys with st := { sys.st with isPaused := false } }
              refine ⟨by rw [hrid], l, htr, ?_⟩
              intro p hp
              rw [htag p hp]
            · simp only [Bool.not_eq_true] at h2
              rw [stepAct, resumeOp_skip cfg sys (Or.inr h2)]
              exact ⟨le_refl _, [], (List.append_nil _).symm,
                by intro p hp; cases hp⟩
          · simp only [Bool.not_eq_true] at h1
            rw [stepAct, resumeOp_skip cfg sys (Or.inl h1)]
            exact ⟨le_refl _, [], (List.append_nil _).symm,
              by intro p hp; cases hp⟩
      | stop =>
          by_cases h1 : sys.st.isRunning = true
          · rw [stepAct, stopOp_eq sys h1]
            exact ⟨le_refl _, [], (List.append_nil _).symm,
              by intro p hp; cases hp⟩
          · simp only [Bool.not_eq_true] at h1
            rw [stepAct, stopOp_skip sys h1]
            exact ⟨le_refl _, [], (List.append_nil _).symm,
              by intro p hp; cases hp⟩
      | fire =>
          cases htm0 : sys.timers with
          | nil =>
              rw [stepAct, fire_nil cfg sys htm0]
              exact ⟨le_refl _, [], (List.append_nil _).symm,
                by intro p hp; cases hp⟩
          | cons id rest =>
              rw [stepAct, fire_cons cfg sys htm0]
              obtain ⟨hrid, l, htr, htag⟩ := processChunk_frame cfg
                { sys with timers := rest }
              refine ⟨by rw [hrid], l, htr, ?_⟩
              intro p hp
              rw [htag p hp]
    obtain ⟨hrle, l, htr, htag⟩ := hframe
    constructor
    · exact Or.inl (lt_of_lt_of_le hlt hrle)
    · rw [htr, runEvents_append, runEvents_tags_ne l ?_, List.append_nil]
      intro p hp
      have := htag p hp
      omega
  · -- the current run, already inactive with no live timer: every
    -- operation either does nothing or begins a strictly later run
    cases a with
    | start =>
        have h1 : sys.st.isRunning = false := hnrun
        rw [stepAct, startOp_fresh cfg sys h1]
        obtain ⟨hrid, l, htr, htag⟩ := processChunk_frame cfg
          { sys with
            st := { sys.st with isRunning := true, isPaused := false,
                                currentIndex := 0, result := [] },
            runId := sys.runId + 1 }
        constructor
        · refine Or.inl ?_
          rw [hrid, hr]
          exact Nat.lt_succ_self _
        · rw [htr, runEvents_append, runEvents_tags_ne l ?_, List.append_nil]
          intro p hp
          rw [htag p hp]
          show sys.runId + 1 ≠ r
          omega
    | pause =>
        rw [stepAct, pauseOp_skip sys (Or.inl hnrun)]
        exact ⟨Or.inr ⟨hr, hnrun, htm⟩, rfl⟩
    | resume =>
        rw [stepAct, resumeOp_skip cfg sys (Or.inl hnrun)]
        exact ⟨Or.inr ⟨hr, hnrun, htm⟩, rfl⟩
    | stop =>
        rw [stepAct, stopOp_skip sys hnrun]
        exact ⟨Or.inr ⟨hr, hnrun, htm⟩, rfl⟩
    | fire =>
        rw [stepAct, fire_nil cfg sys htm]
        exact ⟨Or.inr ⟨hr, hnrun, htm⟩, rfl⟩

theorem dead_exec (cfg : Config T R) :
    ∀ (acts : List Act) (sys : Sys R) {r : Nat}, Dead r sys →
      runEvents r (exec cfg acts sys).trace = runEvents r sys.trace
  | [], _, _, _ => rfl
  | a :: rest, sys, r, hd => by
      obtain ⟨hd', heq⟩ := dead_step cfg sys a hd
      rw [exec, dead_exec cfg rest (stepAct cfg sys a) hd', heq]

end TimeSlice

namespace TimeSlice

variable {T R : Type}

/-- Claim C2: for every run, callbacks have the shape
`progress*, completion?` — at most one completion, fired after every
progress callback of the run, each progress carrying
`(cursor, len(data))` with cursors strictly increasing across the steps of
one run.  (`chunkSize` is a positive integer per the data model.) -/
theorem run_callbacks_shape (cfg : Config T R) (hc : 0 < cfg.count)
    (acts : List Act) (r : Nat) :
    RunShape cfg.data.length
      (runEvents r (exec cfg acts (initSys R)).trace) :=
  (inv_reachable cfg acts).shapes hc r

/-- Witness for C2: the completed first run of the spec's scenario. -/
theorem run_callbacks_shape_witness :
    0 < cfgA.count
    ∧ RunShape cfgA.data.length
        (runEvents 1 (exec cfgA [Act.start, Act.fire, Act.fire]
          (initSys Nat)).trace) :=
  ⟨by decide,
    run_callbacks_shape cfgA (by decide) [Act.start, Act.fire, Act.fire] 1⟩

/-- Counterexample to C3 as stated: after the final chunk of a run fires
and the scheduler completes, the `timeoutId` variable still holds the
stale handle of the already-fired timeout — it is not cleared by the
completion step, so the handle is present while the scheduler is not
Running (and with no slice boundary pending). -/
theorem timeoutId_stale_after_completion :
    (exec cfgB [Act.start, Act.fire] (initSys Nat)).st.isRunning = false
    ∧ (exec cfgB [Act.start, Act.fire] (initSys Nat)).st.isPaused = false
    ∧ (exec cfgB [Act.start, Act.fire] (initSys Nat)).timers = []
    ∧ ¬ (exec cfgB [Act.start, Act.fire] (initSys Nat)).st.timeoutId = none := by
  decide

/-- Claim C3 as amended: a LIVE scheduled continuation exists only while
the scheduler is Running (not paused) with a slice boundary pending
(`cursor < len(data)`), and `timeoutId` then holds its id; on the final
chunk step no live continuation remains when `onComplete` fires — but the
`timeoutId` variable is not cleared then, retaining the stale handle until
the next `pause()` or `stop()`. -/
theorem live_timer_only_while_running (cfg : Config T R) (acts : List Act)
    (id : Nat) (hmem : id ∈ (exec cfg acts (initSys R)).timers) :
    (exec cfg acts (initSys R)).st.isRunning = true
    ∧ (exec cfg acts (initSys R)).st.isPaused = false
    ∧ (exec cfg acts (initSys R)).st.currentIndex < cfg.data.length
    ∧ (exec cfg acts (initSys R)).st.timeoutId = some id := by
  have hinv := inv_reachable cfg acts
  rcases hinv.timersOk with ht | ⟨id', ht, htid, h1, h2⟩
  · rw [ht] at hmem
    cases hmem
  · rw [ht] at hmem
    simp only [List.mem_singleton] at hmem
    subst hmem
    exact ⟨h1, h2, hinv.curLt h1, htid⟩

/-- Witness for the amended C3: mid-run, a timeout is live. -/
theorem live_timer_only_while_running_witness :
    0 ∈ (exec cfgB [Act.start] (initSys Nat)).timers
    ∧ ((exec cfgB [Act.start] (initSys Nat)).st.isRunning = true
      ∧ (exec cfgB [Act.start] (initSys Nat)).st.isPaused = false
      ∧ (exec cfgB [Act.start] (initSys Nat)).st.currentIndex
          < cfgB.data.length
      ∧ (exec cfgB [Act.start] (initSys Nat)).st.timeoutId = some 0) :=
  ⟨by decide, live_timer_only_while_running cfgB [Act.start] 0 (by decide)⟩

/-- Claim C8: `start()` while the scheduler is Running or Paused is a
complete no-op — the whole system state (cursor, results, flags, pending
continuation, trace, hence the number of handler invocations) is
unchanged, and nothing is thrown (the operation is total). -/
theorem start_noop_while_active (cfg : Config T R) (acts : List Act)
    (h : (exec cfg acts (initSys R)).st.isRunning = true
        ∨ (exec cfg acts (initSys R)).st.isPaused = true) :
    startOp cfg (exec cfg acts (initSys R)) = exec cfg acts (initSys R) := by
  have hinv := inv_reachable cfg acts
  have hrun : (exec cfg acts (initSys R)).st.isRunning = true := by
    rcases h with h | h
    · exact h
    · exact hinv.pausedRunning h
  exact startOp_running cfg _ hrun

/-- Witness for C8: a second `start()` while running changes nothing. -/
theorem start_noop_while_active_witness :
    ((exec cfgB [Act.start] (initSys Nat)).st.isRunning = true
      ∨ (exec cfgB [Act.start] (initSys Nat)).st.isPaused = true)
    ∧ startOp cfgB (exec cfgB [Act.start] (initSys Nat))
        = exec cfgB [Act.start] (initSys Nat) :=
  ⟨Or.inl (by decide),
    start_noop_while_active cfgB [Act.start] (Or.inl (by decide))⟩

/-- Claim C10: `isPaused` implies `isRunning` in every reachable state;
initially both flags are false, and every operation and chunk step
preserves the implication, so a Paused scheduler reads as active on
`isRunning` and an Idle or Completed scheduler has `isPaused = false`. -/
theorem paused_implies_running (cfg : Config T R) (acts : List Act) :
    ((initSys R).st.isPaused = false ∧ (initSys R).st.isRunning = false)
    ∧ ((exec cfg acts (initSys R)).st.isPaused = true →
        (exec cfg acts (initSys R)).st.isRunning = true) :=
  ⟨⟨rfl, rfl⟩, fun h => (inv_reachable cfg acts).pausedRunning h⟩

/-- Witness for C10 at a paused state. -/
theorem paused_implies_running_witness :
    (exec cfgB [Act.start, Act.pause] (initSys Nat)).st.isPaused = true
    ∧ (exec cfgB [Act.start, Act.pause] (initSys Nat)).st.isRunning = true :=
  ⟨by decide,
    (paused_implies_running cfgB [Act.start, Act.pause]).2 (by decide)⟩

end TimeSlice

namespace TimeSlice

variable {T R : Type}

/-- Claim C5: `stop()` during an active run (Running or Paused, i.e.
`isRunning = true`, which covers Paused by C10) resets the cursor to 0,
clears the results, synchronously cancels any live continuation and nulls
`timeoutId`, and the completion callback never fires for that run no
matter what happens afterwards; `stop()` is a no-op when the scheduler is
not active. -/
theorem stop_resets_and_silences_run (cfg : Config T R)
    (acts acts2 : List Act) (s : Sys R)
    (hs : s = exec cfg acts (initSys R)) (hrun : s.st.isRunning = true) :
    (stopOp s).st.isRunning = false
    ∧ (stopOp s).st.isPaused = false
    ∧ (stopOp s).st.currentIndex = 0
    ∧ (stopOp s).st.result = []
    ∧ (stopOp s).st.timeoutId = none
    ∧ (stopOp s).timers = []
    ∧ completions (runEvents s.runId (exec cfg acts2 (stopOp s)).trace) = []
    ∧ (∀ sys2 : Sys R, sys2.st.isRunning = false → stopOp sys2 = sys2) := by
  have hinv : Inv cfg s := by
    rw [hs]
    exact inv_reachable cfg acts
  have htm : (match s.st.timeoutId with
      | some id => s.timers.erase id
      | none => s.timers) = [] := by
    rcases hinv.timersOk with ht | ⟨id, ht, htid, _, _⟩
    · cases htid0 : s.st.timeoutId <;> simp [ht]
    · rw [htid, ht]
      simp
  have hstop := stopOp_eq s hrun
  have hdead : Dead s.runId (stopOp s) := by
    rw [hstop]
    exact Or.inr ⟨rfl, rfl, htm⟩
  refine ⟨by rw [hstop], by rw [hstop], by rw [hstop], by rw [hstop],
    by rw [hstop], by rw [hstop]; exact htm, ?_, ?_⟩
  · rw [dead_exec cfg acts2 (stopOp s) hdead, hstop]
    exact hinv.noCompleteActive hrun
  · intro sys2 h2
    exact stopOp_skip sys2 h2

/-- Witness for C5: stopping mid-run; even after time advances, the
stopped run stays silent. -/
theorem stop_resets_and_silences_run_witness :
    (exec cfgB [Act.start] (initSys Nat)) = exec cfgB [Act.start] (initSys Nat)
    ∧ (exec cfgB [Act.start] (initSys Nat)).st.isRunning = true
    ∧ ((stopOp (exec cfgB [Act.start] (initSys Nat))).st.isRunning = false
      ∧ (stopOp (exec cfgB [Act.start] (initSys Nat))).st.isPaused = false
      ∧ (stopOp (exec cfgB [Act.start] (initSys Nat))).st.currentIndex = 0
      ∧ (stopOp (exec cfgB [Act.start] (initSys Nat))).st.result = []
      ∧ (stopOp (exec cfgB [Act.start] (initSys Nat))).st.timeoutId = none
      ∧ (stopOp (exec cfgB [Act.start] (initSys Nat))).timers = []
      ∧ completions (runEvents (exec cfgB [Act.start] (initSys Nat)).runId
          (exec cfgB [Act.fire, Act.fire]
            (stopOp (exec cfgB [Act.start] (initSys Nat)))).trace) = []
      ∧ (∀ sys2 : Sys Nat, sys2.st.isRunning = false → stopOp sys2 = sys2)) :=
  ⟨rfl, by decide,
    stop_resets_and_silences_run cfgB [Act.start] [Act.fire, Act.fire]
      (exec cfgB [Act.start] (initSys Nat)) rfl (by decide)⟩

/-- Claim C6: `pause()` while Running (running, not yet paused) keeps the
cursor, nulls `timeoutId` and cancels the live continuation, so letting
any number of timeouts elapse afterwards changes nothing at all — the
cursor does not advance and neither the handler nor any callback runs;
`pause()` is a no-op unless the scheduler is Running. -/
theorem pause_cancels_pending_continuation (cfg : Config T R)
    (acts : List Act) (s : Sys R) (hs : s = exec cfg acts (initSys R))
    (hrun : s.st.isRunning = true) (hnp : s.st.isPaused = false) :
    (pauseOp s).st.isPaused = true
    ∧ (pauseOp s).st.isRunning = true
    ∧ (pauseOp s).st.currentIndex = s.st.currentIndex
    ∧ (pauseOp s).st.result = s.st.result
    ∧ (pauseOp s).st.timeoutId = none
    ∧ (pauseOp s).timers = []
    ∧ (∀ k, fires cfg k (pauseOp s) = pauseOp s)
    ∧ (∀ sys2 : Sys R,
        sys2.st.isRunning = false ∨ sys2.st.isPaused = true →
        pauseOp sys2 = sys2) := by
  have hinv : Inv cfg s := by
    rw [hs]
    exact inv_reachable cfg acts
  have htm : (match s.st.timeoutId with
      | some id => s.timers.erase id
      | none => s.timers) = [] := by
    rcases hinv.timersOk with ht | ⟨id, ht, htid, _, _⟩
    · cases htid0 : s.st.timeoutId <;> simp [ht]
    · rw [htid, ht]
      simp
  have hpause := pauseOp_eq s hrun hnp
  refine ⟨by rw [hpause], by rw [hpause]; exact hrun, by rw [hpause],
    by rw [hpause], by rw [hpause], by rw [hpause]; exact htm, ?_, ?_⟩
  · intro k
    exact fires_nil cfg (pauseOp s) (by rw [hpause]; exact htm) k
  · intro sys2 h2
    exact pauseOp_skip sys2 h2

/-- Witness for C6: pausing mid-run, then letting timeouts elapse. -/
theorem pause_cancels_pending_continuation_witness :
    (exec cfgB [Act.start] (initSys Nat)) = exec cfgB [Act.start] (initSys Nat)
    ∧ (exec cfgB [Act.start] (initSys Nat)).st.isRunning = true
    ∧ (exec cfgB [Act.start] (initSys Nat)).st.isPaused = false
    ∧ ((pauseOp (exec cfgB [Act.start] (initSys Nat))).st.isPaused = true
      ∧ (pauseOp (exec cfgB [Act.start] (initSys Nat))).st.isRunning = true
      ∧ (pauseOp (exec cfgB [Act.start] (initSys Nat))).st.currentIndex
          = (exec cfgB [Act.start] (initSys Nat)).st.currentIndex
      ∧ (pauseOp (exec cfgB [Act.start] (initSys Nat))).st.result
          = (exec cfgB [Act.start] (initSys Nat)).st.result
      ∧ (pauseOp (exec cfgB [Act.start] (initSys Nat))).st.timeoutId = none
      ∧ (pauseOp (exec cfgB [Act.start] (initSys Nat))).timers = []
      ∧ (∀ k, fires cfgB k (pauseOp (exec cfgB [Act.start] (initSys Nat)))
          = pauseOp (exec cfgB [Act.start] (initSys Nat)))
      ∧ (∀ sys2 : Sys Nat,
          sys2.st.isRunning = false ∨ sys2.st.isPaused = true →
          pauseOp sys2 = sys2)) :=
  ⟨rfl, by decide, by decide,
    pause_cancels_pending_continuation cfgB [Act.start]
      (exec cfgB [Act.start] (initSys Nat)) rfl (by decide) (by decide)⟩

end TimeSlice

namespace TimeSlice

variable {T R : Type}

theorem progressT_progress (q c t : Nat) :
    progressT [(q, Ev.progress c t (R := R))] = [(c, t)] := rfl

theorem progressT_complete (q : Nat) (res : List (Option R)) :
    progressT [(q, Ev.complete res)] = [] := rfl

theorem completionsT_complete (q : Nat) (res : List (Option R)) :
    completionsT [(q, Ev.complete res)] = [res] := rfl

theorem processChunk_cb_counts (cfg : Config T R) (sys0 sys : Sys R)
    (htr : sys.trace = sys0.trace) :
    (progressT (newEvents sys0 (processChunk cfg sys))).length ≤ 1
    ∧ (completionsT (newEvents sys0 (processChunk cfg sys))).length ≤ 1 := by
  by_cases h1 : sys.st.isRunning = true
  · by_cases h2 : sys.st.isPaused = true
    · rw [processChunk_paused cfg sys h2, newEvents_refl sys0 sys htr]
      exact ⟨Nat.zero_le 1, Nat.zero_le 1⟩
    · simp only [Bool.not_eq_true] at h2
      by_cases hcase : chunkEnd cfg sys < cfg.data.length
      · rw [processChunk_cont cfg sys h1 h2 hcase]
        rw [newEvents_of_append sys0 _
          (chunkCalls sys.runId sys.st.currentIndex (chunkEnd cfg sys)
            ++ [(sys.runId, Ev.progress (chunkEnd cfg sys) cfg.data.length)])
          (by dsimp only; rw [htr, List.append_assoc])]
        rw [progressT_append, progressT_chunkCalls, progressT_progress,
            completionsT_append, completionsT_chunkCalls, completionsT_progress]
        exact ⟨le_refl 1, Nat.zero_le 1⟩
      · rw [processChunk_done cfg sys h1 h2 hcase]
        rw [newEvents_of_append sys0 _
          (chunkCalls sys.runId sys.st.currentIndex (chunkEnd cfg sys)
            ++ [(sys.runId, Ev.progress (chunkEnd cfg sys) cfg.data.length),
                (sys.runId, Ev.complete (chunkWrite cfg.handler cfg.data
                  sys.st.currentIndex (chunkEnd cfg sys) sys.st.result))])
          (by dsimp only; rw [htr, List.append_assoc])]
        have hsplit : ([(sys.runId, Ev.progress (chunkEnd cfg sys)
              cfg.data.length),
            (sys.runId, Ev.complete (chunkWrite cfg.handler cfg.data
              sys.st.currentIndex (chunkEnd cfg sys) sys.st.result))]
            : List (Nat × Ev R))
            = [(sys.runId, Ev.progress (chunkEnd cfg sys) cfg.data.length)]
              ++ [(sys.runId, Ev.complete (chunkWrite cfg.handler cfg.data
                sys.st.currentIndex (chunkEnd cfg sys) sys.st.result))] := rfl
        rw [hsplit, progressT_append, progressT_append, progressT_chunkCalls,
            progressT_progress, progressT_complete,
            completionsT_append, completionsT_append, completionsT_chunkCalls,
            completionsT_progress, completionsT_complete]
        exact ⟨le_refl 1, le_refl 1⟩
  · simp only [Bool.not_eq_true] at h1
    rw [processChunk_not_running cfg sys h1, newEvents_refl sys0 sys htr]
    exact ⟨Nat.zero_le 1, Nat.zero_le 1⟩

/-- Counterexample to C4 as stated: `start()` on a fresh scheduler with a
one-element collection synchronously invokes both `onProgress` and
`onComplete` before returning — the first chunk is processed inside the
`start()` call itself, not at a later turn of the task queue. -/
theorem start_invokes_callbacks_synchronously :
    progressT (newEvents (initSys Nat) (startOp cfgC (initSys Nat)))
      = [(1, 1)]
    ∧ completionsT (newEvents (initSys Nat) (startOp cfgC (initSys Nat)))
      = [[some 10]]
    ∧ ¬ progressT (newEvents (initSys Nat) (startOp cfgC (initSys Nat)))
      = [] := by
  decide

/-- Claim C4 as amended: every public operation performs a bounded amount
of work and returns — it processes at most one chunk, so it appends at
most one `onProgress` and at most one `onComplete` invocation (`pause()`
and `stop()` invoke no callback at all); progress and completion are
observed only through the supplied callbacks.  However, the chunk
processed by `start()` or `resume()` runs synchronously inside that call,
so its `onProgress` (and `onComplete`, when it finishes the data) fire
within the call rather than at a later turn; only subsequent chunks run
on later turns of the task queue. -/
theorem ops_bounded_synchronous_work (cfg : Config T R) (sys : Sys R) :
    (progressT (newEvents sys (startOp cfg sys))).length ≤ 1
    ∧ (completionsT (newEvents sys (startOp cfg sys))).length ≤ 1
    ∧ newEvents sys (pauseOp sys) = []
    ∧ newEvents sys (stopOp sys) = []
    ∧ (progressT (newEvents sys (resumeOp cfg sys))).length ≤ 1
    ∧ (completionsT (newEvents sys (resumeOp cfg sys))).length ≤ 1 := by
  have hstart : (progressT (newEvents sys (startOp cfg sys))).length ≤ 1
      ∧ (completionsT (newEvents sys (startOp cfg sys))).length ≤ 1 := by
    by_cases h1 : sys.st.isRunning = true
    · rw [startOp_running cfg sys h1, newEvents_refl sys sys rfl]
      exact ⟨Nat.zero_le 1, Nat.zero_le 1⟩
    · simp only [Bool.not_eq_true] at h1
      rw [startOp_fresh cfg sys h1]
      exact processChunk_cb_counts cfg sys _ rfl
  have hpause : newEvents sys (pauseOp sys) = [] := by
    by_cases h1 : sys.st.isRunning = true
    · by_cases h2 : sys.st.isPaused = true
      · rw [pauseOp_skip sys (Or.inr h2), newEvents_refl sys sys rfl]
      · simp only [Bool.not_eq_true] at h2
        rw [pauseOp_eq sys h1 h2]
        exact newEvents_refl sys _ rfl
    · simp only [Bool.not_eq_true] at h1
      rw [pauseOp_skip sys (Or.inl h1), newEvents_refl sys sys rfl]
  have hstop : newEvents sys (stopOp sys) = [] := by
    by_cases h1 : sys.st.isRunning = true
    · rw [stopOp_eq sys h1]
      exact newEvents_refl sys _ rfl
    · simp only [Bool.not_eq_true] at h1
      rw [stopOp_skip sys h1, newEvents_refl sys sys rfl]
  have hresume : (progressT (newEvents sys (resumeOp cfg sys))).length ≤ 1
      ∧ (completionsT (newEvents sys (resumeOp cfg sys))).length ≤ 1 := by
    by_cases h1 : sys.st.isRunning = true
    · by_cases h2 : sys.st.isPaused = true
      · rw [resumeOp_eq cfg sys h1 h2]
        exact processChunk_cb_counts cfg sys _ rfl
      · simp only [Bool.not_eq_true] at h2
        rw [resumeOp_skip cfg sys (Or.inr h2), newEvents_refl sys sys rfl]
        exact ⟨Nat.zero_le 1, Nat.zero_le 1⟩
    · simp only [Bool.not_eq_true] at h1
      rw [resumeOp_skip cfg sys (Or.inl h1), newEvents_refl sys sys rfl]
      exact ⟨Nat.zero_le 1, Nat.zero_le 1⟩
  exact ⟨hstart.1, hstart.2, hpause, hstop, hresume.1, hresume.2⟩

end TimeSlice

namespace TimeSlice

variable {T R : Type}

/-- Claim C7: `resume()` is a no-op unless the scheduler is Paused; when
Paused it clears the paused flag (back to Running) and synchronously
processes the next chunk immediately — no timeout is awaited — starting
exactly at the saved cursor: the handler is invoked precisely on the
indices from the saved cursor up to the next chunk boundary, never on an
already-processed element. -/
theorem resume_continues_from_cursor (cfg : Config T R) (sys : Sys R)
    (h1 : sys.st.isRunning = true) (h2 : sys.st.isPaused = true) :
    (resumeOp cfg sys).st.isPaused = false
    ∧ (resumeOp cfg sys).st.currentIndex
        = min (sys.st.currentIndex + cfg.count) cfg.data.length
    ∧ callIdxs (newEvents sys (resumeOp cfg sys))
        = List.range' sys.st.currentIndex
            (min (sys.st.currentIndex + cfg.count) cfg.data.length
              - sys.st.currentIndex)
    ∧ (∀ i ∈ callIdxs (newEvents sys (resumeOp cfg sys)),
        sys.st.currentIndex ≤ i)
    ∧ (∀ sys2 : Sys R,
        sys2.st.isRunning = false ∨ sys2.st.isPaused = false →
        resumeOp cfg sys2 = sys2) := by
  have hkey : (resumeOp cfg sys).st.isPaused = false
      ∧ (resumeOp cfg sys).st.currentIndex
          = min (sys.st.currentIndex + cfg.count) cfg.data.length
      ∧ callIdxs (newEvents sys (resumeOp cfg sys))
          = List.range' sys.st.currentIndex
              (min (sys.st.currentIndex + cfg.count) cfg.data.length
                - sys.st.currentIndex) := by
    rw [resumeOp_eq cfg sys h1 h2]
    by_cases hcase : chunkEnd cfg
        { sys with st := { sys.st with isPaused := false } } < cfg.data.length
    · rw [processChunk_cont cfg
        { sys with st := { sys.st with isPaused := false } } h1 rfl hcase]
      refine ⟨rfl, rfl, ?_⟩
      rw [newEvents_of_append sys _ _ (by dsimp only; rw [List.append_assoc])]
      rw [callIdxs_append, callIdxs_chunkCalls, callIdxs_progress,
          List.append_nil]
      rfl
    · rw [processChunk_done cfg
        { sys with st := { sys.st with isPaused := false } } h1 rfl hcase]
      refine ⟨rfl, rfl, ?_⟩
      rw [newEvents_of_append sys _ _ (by dsimp only; rw [List.append_assoc])]
      rw [callIdxs_append, callIdxs_chunkCalls]
      have h0 : callIdxs
          ([(({ sys with st := { sys.st with isPaused := false } } : Sys R).runId,
              Ev.progress (chunkEnd cfg
                { sys with st := { sys.st with isPaused := false } })
                cfg.data.length),
            (({ sys with st := { sys.st with isPaused := false } } : Sys R).runId,
              Ev.complete (chunkWrite cfg.handler cfg.data
                ({ sys with st := { sys.st with isPaused := false } }
                  : Sys R).st.currentIndex
                (chunkEnd cfg
                  { sys with st := { sys.st with isPaused := false } })
                ({ sys with st := { sys.st with isPaused := false } }
                  : Sys R).st.result))] : List (Nat × Ev R)) = [] := rfl
      rw [h0, List.append_nil]
      rfl
  refine ⟨hkey.1, hkey.2.1, hkey.2.2, ?_, ?_⟩
  · intro i hi
    rw [hkey.2.2] at hi
    exact (List.mem_range'_1.mp hi).1
  · intro sys2 hskip
    exact resumeOp_skip cfg sys2 hskip

/-- Witness for C7: resuming the paused run of `cfgB` processes exactly
index 1 — the element at the saved cursor. -/
theorem resume_continues_from_cursor_witness :
    (exec cfgB [Act.start, Act.pause] (initSys Nat)).st.isRunning = true
    ∧ (exec cfgB [Act.start, Act.pause] (initSys Nat)).st.isPaused = true
    ∧ ((resumeOp cfgB
          (exec cfgB [Act.start, Act.pause] (initSys Nat))).st.isPaused = false
      ∧ (resumeOp cfgB
          (exec cfgB [Act.start, Act.pause] (initSys Nat))).st.currentIndex
          = min ((exec cfgB [Act.start, Act.pause]
              (initSys Nat)).st.currentIndex + cfgB.count) cfgB.data.length
      ∧ callIdxs (newEvents (exec cfgB [Act.start, Act.pause] (initSys Nat))
            (resumeOp cfgB (exec cfgB [Act.start, Act.pause] (initSys Nat))))
          = List.range'
              (exec cfgB [Act.start, Act.pause] (initSys Nat)).st.currentIndex
              (min ((exec cfgB [Act.start, Act.pause]
                  (initSys Nat)).st.currentIndex + cfgB.count)
                cfgB.data.length
                - (exec cfgB [Act.start, Act.pause]
                    (initSys Nat)).st.currentIndex)
      ∧ (∀ i ∈ callIdxs (newEvents
            (exec cfgB [Act.start, Act.pause] (initSys Nat))
            (resumeOp cfgB (exec cfgB [Act.start, Act.pause] (initSys Nat)))),
          (exec cfgB [Act.start, Act.pause]
            (initSys Nat)).st.currentIndex ≤ i)
      ∧ (∀ sys2 : Sys Nat,
          sys2.st.isRunning = false ∨ sys2.st.isPaused = false →
          resumeOp cfgB sys2 = sys2)) :=
  ⟨by decide, by decide,
    resume_continues_from_cursor cfgB
      (exec cfgB [Act.start, Act.pause] (initSys Nat))
      (by decide) (by decide)⟩

end TimeSlice

namespace TimeSlice

variable {T R : Type}

/-- Claim C9: when `len(data) ≤ chunkSize`, a `start()` from an inactive
state processes the whole collection in the single first chunk step and
completes, with no timeout ever scheduled (`nextId` is untouched and no
timer is live); in particular for empty input the completion callback
fires exactly once with the empty sequence and the handler is never
invoked (the emitted events are exactly the listed ones: for
`len(data) = 0` there is no `call` event and one `complete []`). -/
theorem single_chunk_completes_immediately (cfg : Config T R)
    (acts : List Act) (s : Sys R) (hs : s = exec cfg acts (initSys R))
    (hfit : cfg.data.length ≤ cfg.count) (hidle : s.st.isRunning = false) :
    (startOp cfg s).st.isRunning = false
    ∧ (startOp cfg s).st.currentIndex = cfg.data.length
    ∧ (startOp cfg s).st.result = prefixRes cfg cfg.data.length
    ∧ (startOp cfg s).nextId = s.nextId
    ∧ (startOp cfg s).timers = []
    ∧ newEvents s (startOp cfg s)
        = ((List.range cfg.data.length).map
            fun i => (s.runId + 1, Ev.call i))
          ++ [(s.runId + 1, Ev.progress cfg.data.length cfg.data.length),
              (s.runId + 1, Ev.complete (prefixRes cfg cfg.data.length))] := by
  have hinv : Inv cfg s := by
    rw [hs]
    exact inv_reachable cfg acts
  have htm : s.timers = [] := by
    rcases hinv.timersOk with ht | ⟨id, _, _, hrun, _⟩
    · exact ht
    · rw [hrun] at hidle
      cases hidle
  set s1 : Sys R :=
    { s with
      st := { s.st with isRunning := true, isPaused := false,
                        currentIndex := 0, result := [] },
      runId := s.runId + 1 } with hs1
  have hstart : startOp cfg s = processChunk cfg s1 := startOp_fresh cfg s hidle
  have hce : chunkEnd cfg s1 = cfg.data.length := by
    show min (0 + cfg.count) cfg.data.length = cfg.data.length
    omega
  have hcw : chunkWrite cfg.handler cfg.data 0 cfg.data.length
      ([] : List (Option R)) = prefixRes cfg cfg.data.length := by
    have h0 : ([] : List (Option R)) = prefixRes cfg 0 := rfl
    have h3 : 0 + cfg.data.length = cfg.data.length := by omega
    rw [h0, ← h3]
    exact chunkWrite_prefixRes cfg _ 0 (by omega)
  have hpc := processChunk_done cfg s1 rfl rfl (by rw [hce]; omega)
  rw [hce] at hpc
  have hcw1 : chunkWrite cfg.handler cfg.data s1.st.currentIndex
      cfg.data.length s1.st.result = prefixRes cfg cfg.data.length := hcw
  rw [hcw1] at hpc
  have hcalls : chunkCalls s1.runId s1.st.currentIndex cfg.data.length
      = ((List.range cfg.data.length).map
          fun i => ((s.runId + 1 : Nat), Ev.call i (R := R))) := by
    show (List.range' 0 (cfg.data.length - 0)).map _ = _
    rw [Nat.sub_zero, ← List.range_eq_range']
  refine ⟨by rw [hstart, hpc], by rw [hstart, hpc], by rw [hstart, hpc],
    by rw [hstart, hpc], by rw [hstart, hpc]; exact htm, ?_⟩
  rw [hstart]
  refine newEvents_of_append s _ _ ?_
  rw [hpc]
  show s1.trace ++ chunkCalls s1.runId s1.st.currentIndex cfg.data.length
      ++ _ = _
  rw [hcalls]
  show s.trace ++ _ ++ _ = _
  rw [List.append_assoc]

/-- Witness for C9 on the empty collection: completion fires once with
`[]` and the handler is never invoked. -/
theorem single_chunk_completes_immediately_witness :
    (initSys Nat) = exec cfgE [] (initSys Nat)
    ∧ cfgE.data.length ≤ cfgE.count
    ∧ (initSys Nat).st.isRunning = false
    ∧ ((startOp cfgE (initSys Nat)).st.isRunning = false
      ∧ (startOp cfgE (initSys Nat)).st.currentIndex = cfgE.data.length
      ∧ (startOp cfgE (initSys Nat)).st.result
          = prefixRes cfgE cfgE.data.length
      ∧ (startOp cfgE (initSys Nat)).nextId = (initSys Nat).nextId
      ∧ (startOp cfgE (initSys Nat)).timers = []
      ∧ newEvents (initSys Nat) (startOp cfgE (initSys Nat))
          = ((List.range cfgE.data.length).map
              fun i => ((initSys Nat).runId + 1, Ev.call i))
            ++ [((initSys Nat).runId + 1,
                  Ev.progress cfgE.data.length cfgE.data.length),
                ((initSys Nat).runId + 1,
                  Ev.complete (prefixRes cfgE cfgE.data.length))]) :=
  ⟨rfl, by decide, rfl,
    single_chunk_completes_immediately cfgE [] (initSys Nat) rfl
      (by decide) rfl⟩

end TimeSlice
